import Mathlib

/-!
Shallow embedding of `src/toolchain.c` (the "enchanted-stone" brainfuck
toolchain): the execution engine (`bf_state`, `bf_init`, `bf_char`, the
`sim` run loop) and the ROM encoder (`bf_instr_to_oct`,
`bf_get_rom_instruction_count`, `bf_get_nth_rom_instruction`,
`bf_generate_rom`).

Machine integers are modelled as `Nat` with explicit reductions:
`uint32_t` arithmetic is taken modulo `U32 = 2 ^ 32`, `size_t`
arithmetic modulo `SIZE_T = 2 ^ 64`.  C arrays backing the machine are
modelled as functions `Nat → Nat`; a store is `updateFn`.  The I/O
streams of `getchar` / `putchar` are explicit lists of byte values
threaded through the step function.
-/

/-- `#define STACK_SIZE 0x100` -/
def STACK_SIZE : Nat := 0x100

/-- `#define MEMORY_SIZE 0x10000` -/
def MEMORY_SIZE : Nat := 0x10000

/-- Modulus of `uint32_t` arithmetic. -/
def U32 : Nat := 2 ^ 32

/-- Modulus of `size_t` arithmetic (64-bit platform). -/
def SIZE_T : Nat := 2 ^ 64

/-- `sizeof(uint32_t)` in bytes, used to convert `memset` byte counts to
array-element counts. -/
def SIZEOF_UINT32 : Nat := 4

/-- `uint32_t` decrement (the `--` / `- 1` of the C code): `n - 1`
wrapping at zero.  On every representable value (`n < 2 ^ 32`) this
equals `(n + (2 ^ 32 - 1)) % 2 ^ 32` (see `u32_dec_eq_mod`); it is
written in this branch form so that terms stay cheap to reduce. -/
def u32_dec (n : Nat) : Nat :=
  if n = 0 then U32 - 1 else n - 1

/-- Functional model of a C array store: `f[i] = v`. -/
def updateFn (f : Nat → Nat) (i v : Nat) : Nat → Nat :=
  fun j => if j = i then v else f j

/-- The C struct `bf_state` (CPU / simulator state).  `stack` and `mem`
are the pointed-to arrays; `sp`, `sp_bff`, `memp` are `uint32_t`,
`pc` is `size_t`, `fast_forwarding` is an `int` used as a boolean. -/
structure bf_state where
  sp : Nat
  pc : Nat
  stack : Nat → Nat
  fast_forwarding : Bool
  sp_bff : Nat
  memp : Nat
  mem : Nat → Nat

/-- The C struct `bf_sim_settings`: the cell-width mask. -/
structure bf_sim_settings where
  cell_mask : Nat

/-- A machine state together with the I/O streams of the process:
`inp` is the sequence of bytes `getchar` has not yet consumed (empty
list = end of stream / `EOF`), `out` is the sequence of bytes emitted
by `putchar` so far. -/
structure bf_exec where
  st : bf_state
  inp : List Nat
  out : List Nat

/-- The cell mask computed by `bf_sim_args_set_cm` for a given width:
`(uint32_t) ((1ULL << (uint64_t) width) - 1)`. -/
def bf_cell_mask (width : Nat) : Nat :=
  ((1 <<< width) - 1) % U32

/-- `bf_init`, parameterised by the indeterminate contents the two
`malloc` calls return before `memset` runs (`stack0` for the call
stack, `mem0` for the memory).  The C code clears the stack with
`memset(ret.stack, 0, STACK_SIZE)` — `STACK_SIZE` *bytes*, i.e. only
the first `STACK_SIZE / sizeof(uint32_t)` entries — while the memory
is cleared with `memset(ret.mem, 0, MEMORY_SIZE * sizeof(uint32_t))`,
i.e. all `MEMORY_SIZE` cells. -/
def bf_init (stack0 mem0 : Nat → Nat) : bf_state where
  sp := 0
  pc := 0
  stack := fun i => if i < STACK_SIZE / SIZEOF_UINT32 then 0 else stack0 i
  fast_forwarding := false
  sp_bff := 0
  memp := 0
  mem := fun i => if i < MEMORY_SIZE then 0 else mem0 i

/-- The first switch of `bf_char`: the data / I/O effect of a
character, skipped entirely while fast-forwarding. -/
def bf_data_step (set : bf_sim_settings) (e : bf_exec) (c : Char) : bf_exec :=
  let s := e.st
  if s.fast_forwarding = false then
    if c = '>' then
      { e with st := { s with memp := (s.memp + 1) % U32 } }
    else if c = '<' then
      { e with st := { s with memp := u32_dec s.memp } }
    else if c = '+' then
      { e with st := { s with
          mem := updateFn s.mem s.memp
            (((s.mem s.memp + 1) % U32) &&& set.cell_mask) } }
    else if c = '-' then
      { e with st := { s with
          mem := updateFn s.mem s.memp
            ((u32_dec (s.mem s.memp) % U32) &&& set.cell_mask) } }
    else if c = '.' then
      { e with out := e.out ++
          [if s.mem s.memp = 9 then 32 else s.mem s.memp % 256] }
    else if c = ',' then
      match e.inp with
      | [] => e
      | b :: rest =>
        { e with st := { s with mem := updateFn s.mem s.memp b },
                 inp := rest }
    else e
  else e

/-- The `case '['` branch of `bf_char`'s second switch: push
`pc + 1` onto the call stack and, if the current cell is 0 and the
machine is not already fast-forwarding, enter fast-forwarding; then
the `if (ctn) state->pc++` advance (always taken for `[`). -/
def bf_flow_open (e1 : bf_exec) : bf_exec :=
  let s1 := e1.st
  let sp2 := (s1.sp + 1) % U32
  let st2 : bf_state :=
    { s1 with sp := sp2, stack := updateFn s1.stack sp2 ((s1.pc + 1) % U32) }
  let st3 : bf_state :=
    if st2.mem st2.memp = 0 ∧ st2.fast_forwarding = false then
      { st2 with sp_bff := st2.sp, fast_forwarding := true }
    else st2
  { e1 with st := { st3 with pc := (st3.pc + 1) % SIZE_T } }

/-- The fast-forward exit check at the head of the `case ']'` branch:
if fast-forwarding and the stack pointer equals the one recorded when
fast-forwarding began, the correspondent `]` was found. -/
def bf_close_exit (s1 : bf_state) : bf_state :=
  if s1.fast_forwarding = true ∧ s1.sp = s1.sp_bff then
    { s1 with sp_bff := 0, fast_forwarding := false }
  else s1

/-- The `case ']'` branch of `bf_char`'s second switch: after the
fast-forward exit check, either stop looping (zero the stack top, pop
it, and fall through to the `pc++` advance) or keep looping (jump to
the address on top of the stack, `ctn = 0` so no advance). -/
def bf_flow_close (e1 : bf_exec) : bf_exec :=
  let st2 := bf_close_exit e1.st
  if st2.mem st2.memp = 0 then
    let st3 : bf_state :=
      { st2 with stack := updateFn st2.stack st2.sp 0,
                 sp := u32_dec st2.sp }
    { e1 with st := { st3 with pc := (st3.pc + 1) % SIZE_T } }
  else
    { e1 with st := { st2 with pc := st2.stack st2.sp } }

/-- The second switch of `bf_char`: the `[` / `]` control flow
(executed in fast-forwarding mode as well), followed by the
`if (ctn) state->pc++` advance (`ctn = 0` exactly on the back-jump
branch of `]`). -/
def bf_flow_step (e1 : bf_exec) (c : Char) : bf_exec :=
  if c = '[' then bf_flow_open e1
  else if c = ']' then bf_flow_close e1
  else { e1 with st := { e1.st with pc := (e1.st.pc + 1) % SIZE_T } }

/-- `bf_char`: execute a single instruction, updating the machine's
state and the I/O streams.  Mirrors the C function: a first switch
(skipped while fast-forwarding) applies the data / I/O effect, a second
switch handles `[` and `]`, and the program counter advances unless a
back-jump was taken (`ctn = 0`). -/
def bf_char (set : bf_sim_settings) (e : bf_exec) (c : Char) : bf_exec :=
  bf_flow_step (bf_data_step set e c) c

/-- The `sim` run loop of `main`:
`while (state.pc < file.len) bf_char(set, &state, file.code[state.pc]);`
with an explicit fuel bound (the loop need not terminate). -/
def bf_run (set : bf_sim_settings) (code : List Char) :
    Nat → bf_exec → bf_exec
  | 0, e => e
  | n + 1, e =>
    if h : e.st.pc < code.length then
      bf_run set code n (bf_char set e (code.get ⟨e.st.pc, h⟩))
    else e

/-- `bf_instr_to_oct`: convert a brainfuck instruction to an octal
digit character; `'\0'` is returned for invalid instructions. -/
def bf_instr_to_oct (c : Char) : Char :=
  if c = '>' then '0'
  else if c = '<' then '1'
  else if c = '+' then '2'
  else if c = '-' then '3'
  else if c = '.' then '4'
  else if c = ',' then '5'
  else if c = '[' then '6'
  else if c = ']' then '7'
  else '\x00'

/-- `bf_get_rom_instruction_count`: total number of instructions that
need to be written to a ROM file, for a source of length `len`. -/
def bf_get_rom_instruction_count (len : Nat) : Nat :=
  len + 8

/-- The virtual instruction sequence the ROM generator iterates over:
`bf_get_nth_rom_instruction` for `n = 0, …, len + 8 - 1`, i.e. the
`><` prologue, the file's characters, and the `[-]+[]` epilogue. -/
def romInstructions (S : List Char) : List Char :=
  '>' :: '<' :: (S ++ ['[', '-', ']', '+', '[', ']'])

/-- The ROM header: `"v3.0 hex words plain\n"`. -/
def romHeader : List Char :=
  "v3.0 hex words plain\n".toList

/-- The emission loop of `bf_generate_rom`: for each virtual
instruction, convert it to an octal digit; skip it if the conversion
returned `'\0'`, otherwise write the digit and a separator (a newline
every 16 emitted digits, a space otherwise), incrementing `count`. -/
def romLoop : List Char → Nat → List Char
  | [], _ => []
  | c :: rest, count =>
    let fst := bf_instr_to_oct c
    if fst ≠ '\x00' then
      let snd := if (count + 1) % 16 = 0 then '\n' else ' '
      fst :: snd :: romLoop rest (count + 1)
    else
      romLoop rest count

/-- The bytes `bf_generate_rom` actually writes into its output
buffer: the header followed by the emitted digit/separator pairs. -/
def bf_generate_rom_bytes (S : List Char) : List Char :=
  romHeader ++ romLoop (romInstructions S) 0

/-- The length `bf_generate_rom` *reports* in the returned
`bf_rom_file`: `out_length - 1` where
`out_length = header_length + icount * 2`. -/
def bf_generate_rom_len (S : List Char) : Nat :=
  (romHeader.length + bf_get_rom_instruction_count S.length * 2) - 1

/-- Elements at even indices of a list (used to read the digit of each
emitted digit/separator pair back out of the ROM byte stream). -/
def evenPositions : List Char → List Char
  | [] => []
  | [a] => [a]
  | a :: _ :: rest => a :: evenPositions rest

/-- The digit tokens of the generated ROM, in order: the first of each
emitted digit/separator pair. -/
def romTokens (S : List Char) : List Char :=
  evenPositions (romLoop (romInstructions S) 0)

/-- The number of mappable (encodable) characters of a source. -/
def mappableCount (S : List Char) : Nat :=
  (S.filter (fun c => bf_instr_to_oct c != '\x00')).length

/-- Modelled from the spec: the inverse of the digit mapping
(`0`..`7` back to the eight instructions), used to state the
encode/decode round trip; the repository has no decoder of its own. -/
def bf_oct_to_instr (c : Char) : Char :=
  if c = '0' then '>'
  else if c = '1' then '<'
  else if c = '2' then '+'
  else if c = '3' then '-'
  else if c = '4' then '.'
  else if c = '5' then ','
  else if c = '6' then '['
  else if c = '7' then ']'
  else '\x00'

/-! ### Helper lemmas about single steps -/

lemma bf_close_exit_fields (s1 : bf_state) :
    (bf_close_exit s1).mem = s1.mem ∧ (bf_close_exit s1).memp = s1.memp ∧
    (bf_close_exit s1).sp = s1.sp ∧ (bf_close_exit s1).stack = s1.stack ∧
    (bf_close_exit s1).pc = s1.pc := by
  unfold bf_close_exit
  split
  · exact ⟨rfl, rfl, rfl, rfl, rfl⟩
  · exact ⟨rfl, rfl, rfl, rfl, rfl⟩

lemma bf_flow_close_preserves (e1 : bf_exec) :
    (bf_flow_close e1).st.mem = e1.st.mem ∧ (bf_flow_close e1).st.memp = e1.st.memp ∧
    (bf_flow_close e1).inp = e1.inp ∧ (bf_flow_close e1).out = e1.out := by
  obtain ⟨hmem, hmemp, hsp, hstk, hpc⟩ := bf_close_exit_fields e1.st
  unfold bf_flow_close
  dsimp only
  split
  · exact ⟨hmem, hmemp, rfl, rfl⟩
  · exact ⟨hmem, hmemp, rfl, rfl⟩

lemma bf_flow_open_preserves (e1 : bf_exec) :
    (bf_flow_open e1).st.mem = e1.st.mem ∧ (bf_flow_open e1).st.memp = e1.st.memp ∧
    (bf_flow_open e1).inp = e1.inp ∧ (bf_flow_open e1).out = e1.out := by
  unfold bf_flow_open
  dsimp only
  split
  · exact ⟨rfl, rfl, rfl, rfl⟩
  · exact ⟨rfl, rfl, rfl, rfl⟩

lemma bf_flow_step_preserves (e1 : bf_exec) (c : Char) :
    (bf_flow_step e1 c).st.mem = e1.st.mem ∧ (bf_flow_step e1 c).st.memp = e1.st.memp ∧
    (bf_flow_step e1 c).inp = e1.inp ∧ (bf_flow_step e1 c).out = e1.out := by
  unfold bf_flow_step
  split
  · exact bf_flow_open_preserves e1
  · split
    · exact bf_flow_close_preserves e1
    · exact ⟨rfl, rfl, rfl, rfl⟩

lemma bf_data_step_ff (set : bf_sim_settings) (e : bf_exec) (c : Char)
    (h : e.st.fast_forwarding = true) : bf_data_step set e c = e := by
  unfold bf_data_step
  dsimp only
  rw [h]
  exact if_neg (by simp)

lemma bf_char_ff (set : bf_sim_settings) (e : bf_exec) (c : Char)
    (h : e.st.fast_forwarding = true) :
    (bf_char set e c).st.mem = e.st.mem ∧ (bf_char set e c).st.memp = e.st.memp ∧
    (bf_char set e c).inp = e.inp ∧ (bf_char set e c).out = e.out := by
  rw [bf_char, bf_data_step_ff set e c h]
  exact bf_flow_step_preserves e c

lemma bf_flow_step_other (e1 : bf_exec) (c : Char) (h1 : c ≠ '[') (h2 : c ≠ ']') :
    bf_flow_step e1 c = { e1 with st := { e1.st with pc := (e1.st.pc + 1) % SIZE_T } } := by
  unfold bf_flow_step
  rw [if_neg h1, if_neg h2]

lemma bf_data_step_gt (set : bf_sim_settings) (e : bf_exec)
    (h : e.st.fast_forwarding = false) :
    bf_data_step set e '>' = { e with st := { e.st with memp := (e.st.memp + 1) % U32 } } := by
  unfold bf_data_step
  dsimp only
  rw [h]
  rfl

lemma bf_data_step_lt (set : bf_sim_settings) (e : bf_exec)
    (h : e.st.fast_forwarding = false) :
    bf_data_step set e '<' = { e with st := { e.st with memp := u32_dec e.st.memp } } := by
  unfold bf_data_step
  dsimp only
  rw [h]
  rfl

lemma bf_data_step_plus (set : bf_sim_settings) (e : bf_exec)
    (h : e.st.fast_forwarding = false) :
    bf_data_step set e '+' = { e with st := { e.st with
      mem := updateFn e.st.mem e.st.memp
        (((e.st.mem e.st.memp + 1) % U32) &&& set.cell_mask) } } := by
  unfold bf_data_step
  dsimp only
  rw [h]
  rfl

lemma bf_data_step_dot (set : bf_sim_settings) (e : bf_exec)
    (h : e.st.fast_forwarding = false) :
    bf_data_step set e '.' = { e with out := e.out ++
      [if e.st.mem e.st.memp = 9 then 32 else e.st.mem e.st.memp % 256] } := by
  unfold bf_data_step
  dsimp only
  rw [h]
  rfl

lemma bf_data_step_comma_nil (set : bf_sim_settings) (e : bf_exec)
    (h : e.st.fast_forwarding = false) (hinp : e.inp = []) :
    bf_data_step set e ',' = e := by
  unfold bf_data_step
  dsimp only
  rw [h, hinp]
  rfl

lemma bf_data_step_comma_cons (set : bf_sim_settings) (e : bf_exec) (b : Nat)
    (rest : List Nat) (h : e.st.fast_forwarding = false) (hinp : e.inp = b :: rest) :
    bf_data_step set e ',' =
      { e with st := { e.st with mem := updateFn e.st.mem e.st.memp b }, inp := rest } := by
  unfold bf_data_step
  dsimp only
  rw [h, hinp]
  rfl

lemma bf_char_gt (set : bf_sim_settings) (e : bf_exec)
    (h : e.st.fast_forwarding = false) :
    bf_char set e '>' = { e with st := { e.st with
      memp := (e.st.memp + 1) % U32, pc := (e.st.pc + 1) % SIZE_T } } := by
  rw [bf_char, bf_data_step_gt set e h,
    bf_flow_step_other _ _ (by decide) (by decide)]

lemma bf_char_lt (set : bf_sim_settings) (e : bf_exec)
    (h : e.st.fast_forwarding = false) :
    bf_char set e '<' = { e with st := { e.st with
      memp := u32_dec e.st.memp, pc := (e.st.pc + 1) % SIZE_T } } := by
  rw [bf_char, bf_data_step_lt set e h,
    bf_flow_step_other _ _ (by decide) (by decide)]

lemma bf_char_plus (set : bf_sim_settings) (e : bf_exec)
    (h : e.st.fast_forwarding = false) :
    bf_char set e '+' = { e with st := { e.st with
      mem := updateFn e.st.mem e.st.memp
        (((e.st.mem e.st.memp + 1) % U32) &&& set.cell_mask),
      pc := (e.st.pc + 1) % SIZE_T } } := by
  rw [bf_char, bf_data_step_plus set e h,
    bf_flow_step_other _ _ (by decide) (by decide)]

lemma bf_char_dot (set : bf_sim_settings) (e : bf_exec)
    (h : e.st.fast_forwarding = false) :
    bf_char set e '.' = { e with
      st := { e.st with pc := (e.st.pc + 1) % SIZE_T },
      out := e.out ++ [if e.st.mem e.st.memp = 9 then 32 else e.st.mem e.st.memp % 256] } := by
  rw [bf_char, bf_data_step_dot set e h,
    bf_flow_step_other _ _ (by decide) (by decide)]

lemma bf_char_comma_nil (set : bf_sim_settings) (e : bf_exec)
    (h : e.st.fast_forwarding = false) (hinp : e.inp = []) :
    bf_char set e ',' = { e with st := { e.st with pc := (e.st.pc + 1) % SIZE_T } } := by
  rw [bf_char, bf_data_step_comma_nil set e h hinp,
    bf_flow_step_other _ _ (by decide) (by decide)]

lemma bf_char_comma_cons (set : bf_sim_settings) (e : bf_exec) (b : Nat)
    (rest : List Nat) (h : e.st.fast_forwarding = false) (hinp : e.inp = b :: rest) :
    bf_char set e ',' = { e with
      st := { e.st with
                mem := updateFn e.st.mem e.st.memp b,
                pc := (e.st.pc + 1) % SIZE_T },
      inp := rest } := by
  rw [bf_char, bf_data_step_comma_cons set e b rest h hinp,
    bf_flow_step_other _ _ (by decide) (by decide)]

lemma u32_dec_eq_mod (n : Nat) (h : n < U32) :
    u32_dec n = (n + (U32 - 1)) % U32 := by
  have hU : U32 = 4294967296 := by norm_num [U32]
  unfold u32_dec
  rw [hU] at h ⊢
  split <;> omega

/-! ### Shared concrete configurations -/

/-- The default simulation settings: 8-bit cells. -/
def set8 : bf_sim_settings := ⟨bf_cell_mask 8⟩

/-- All-zero `malloc` garbage. -/
def zeroFn : Nat → Nat := fun _ => 0

/-- A fresh run: initial machine state (with the given `malloc`
garbage) and input stream, empty output. -/
def execInit (stack0 mem0 : Nat → Nat) (inp : List Nat) : bf_exec :=
  ⟨bf_init stack0 mem0, inp, []⟩

/-! ### Helper lemmas about the ROM encoder -/

lemma romLoop_evens (l : List Char) :
    ∀ n, evenPositions (romLoop l n) =
      (l.map bf_instr_to_oct).filter (fun c => c != '\x00') := by
  induction l with
  | nil => intro n; rfl
  | cons c rest ih =>
    intro n
    by_cases h : bf_instr_to_oct c = '\x00'
    · simp [romLoop, h, evenPositions, ih]
    · simp [romLoop, h, evenPositions, ih]

lemma romLoop_length (l : List Char) :
    ∀ n, (romLoop l n).length =
      2 * ((l.map bf_instr_to_oct).filter (fun c => c != '\x00')).length := by
  induction l with
  | nil => intro n; rfl
  | cons c rest ih =>
    intro n
    by_cases h : bf_instr_to_oct c = '\x00'
    · simp [romLoop, h, ih]
    · simp [romLoop, h, ih]; ring

lemma mapped_filter (S : List Char) :
    (S.map bf_instr_to_oct).filter (fun c => c != '\x00') =
      (S.filter (fun c => bf_instr_to_oct c != '\x00')).map bf_instr_to_oct := by
  rw [List.filter_map]
  rfl

lemma romTokens_eq (S : List Char) :
    romTokens S = '0' :: '1' ::
      (((S.map bf_instr_to_oct).filter (fun c => c != '\x00')) ++
        ['6', '3', '7', '2', '6', '7']) := by
  unfold romTokens romInstructions
  rw [romLoop_evens]
  have h1 : bf_instr_to_oct '>' = '0' := by decide
  have h2 : bf_instr_to_oct '<' = '1' := by decide
  have hepi : ((['[', '-', ']', '+', '[', ']'].map bf_instr_to_oct).filter
      (fun c => c != '\x00')) = ['6', '3', '7', '2', '6', '7'] := by decide
  simp [h1, h2, hepi]
  decide

lemma mappableCount_eq (S : List Char) :
    ((S.map bf_instr_to_oct).filter (fun c => c != '\x00')).length = mappableCount S := by
  rw [mapped_filter, mappableCount, List.length_map]

lemma romTokens_length (S : List Char) :
    (romTokens S).length = mappableCount S + 8 := by
  rw [romTokens_eq]
  simp [mappableCount_eq]

lemma rom_bytes_length (S : List Char) :
    (bf_generate_rom_bytes S).length = romHeader.length + 2 * (mappableCount S + 8) := by
  unfold bf_generate_rom_bytes
  rw [List.length_append, romLoop_length]
  have h : (((romInstructions S).map bf_instr_to_oct).filter
      (fun c => c != '\x00')).length = mappableCount S + 8 := by
    rw [← romLoop_evens (romInstructions S) 0]
    exact romTokens_length S
  rw [h]

lemma oct_roundtrip (c : Char) (h : bf_instr_to_oct c ≠ '\x00') :
    bf_oct_to_instr (bf_instr_to_oct c) = c := by
  unfold bf_instr_to_oct at h ⊢
  split_ifs at h ⊢ <;> first | (subst_vars; rfl) | exact absurd rfl h

/-! ### The claims -/

/-- C1, counterexample to the claim as stated: executing a single
MoveLeft from the initial state (program `<`) leaves the data pointer
at `2 ^ 32 - 1`, which is not below the memory size (65536): the data
pointer does **not** wrap modulo the memory size, and
`data_pointer < memory.len` fails in a reachable state. -/
theorem C1_counterexample :
    (bf_char set8 (execInit zeroFn zeroFn []) '<').st.memp = 2 ^ 32 - 1 ∧
    ¬ ((bf_char set8 (execInit zeroFn zeroFn []) '<').st.memp < MEMORY_SIZE) := by
  constructor
  · decide
  · decide

/-- C1, amended: after processing a MoveRight (`>`) or MoveLeft (`<`)
instruction outside fast-forwarding, the data pointer wraps modulo
`2 ^ 32` (the `uint32_t` range), not modulo the memory size; the
invariant maintained by every reachable state is
`data_pointer < 2 ^ 32`, not `data_pointer < memory.len`. -/
theorem C1_amended_thm (set : bf_sim_settings) (e : bf_exec)
    (h : e.st.fast_forwarding = false) (hm : e.st.memp < 2 ^ 32) :
    (bf_char set e '>').st.memp = (e.st.memp + 1) % 2 ^ 32 ∧
    (bf_char set e '<').st.memp = (e.st.memp + (2 ^ 32 - 1)) % 2 ^ 32 ∧
    (bf_char set e '>').st.memp < 2 ^ 32 ∧
    (bf_char set e '<').st.memp < 2 ^ 32 := by
  rw [bf_char_gt set e h, bf_char_lt set e h]
  dsimp only
  have hU : U32 = 2 ^ 32 := rfl
  refine ⟨rfl, ?_, ?_, ?_⟩
  · rw [← hU]
    exact u32_dec_eq_mod e.st.memp (hU ▸ hm)
  · rw [← hU]
    exact Nat.mod_lt _ (by norm_num [U32])
  · unfold u32_dec
    have h2 : U32 = 4294967296 := by norm_num [U32]
    have h3 : (2 : Nat) ^ 32 = 4294967296 := by norm_num
    rw [h2, h3]
    rw [h3] at hm
    split <;> omega

/-- C1, witness: the amended theorem applied to the initial state of
a run with 8-bit cells. -/
theorem C1_witness :
    (bf_char set8 (execInit zeroFn zeroFn []) '>').st.memp =
      ((execInit zeroFn zeroFn []).st.memp + 1) % 2 ^ 32 :=
  (C1_amended_thm set8 (execInit zeroFn zeroFn []) rfl (by decide)).1

/-- C2: for every instruction source `S`, the generated ROM begins
with the header line `v3.0 hex words plain`, its digit-token count is
`mappableCount S + 8`, its first two tokens are `0 1` (the `><`
prologue), and its last six tokens are `6 3 7 2 6 7` (the digits of
the fixed `[-]+[]` epilogue), regardless of `S`. -/
theorem C2_thm (S : List Char) :
    (bf_generate_rom_bytes S).take romHeader.length = romHeader ∧
    (romTokens S).length = mappableCount S + 8 ∧
    (romTokens S).take 2 = ['0', '1'] ∧
    (romTokens S).drop (mappableCount S + 2) = ['6', '3', '7', '2', '6', '7'] := by
  refine ⟨?_, romTokens_length S, ?_, ?_⟩
  · unfold bf_generate_rom_bytes
    exact List.take_left romHeader _
  · rw [romTokens_eq]; rfl
  · rw [romTokens_eq, ← mappableCount_eq S]
    exact List.drop_left _ _

/-- C5: decoding the digit tokens of the generated ROM through the
inverse of the digit mapping, after removing the 2-token prologue and
6-token epilogue, reconstructs exactly the subsequence of mappable
instructions of `S`, in their original order. -/
theorem C5_thm (S : List Char) :
    (((romTokens S).drop 2).take (mappableCount S)).map bf_oct_to_instr
      = S.filter (fun c => bf_instr_to_oct c != '\x00') := by
  rw [romTokens_eq]
  have hb : (('0' :: '1' ::
      ((S.map bf_instr_to_oct).filter (fun c => c != '\x00') ++
        ['6', '3', '7', '2', '6', '7'])).drop 2) =
      (S.map bf_instr_to_oct).filter (fun c => c != '\x00') ++
        ['6', '3', '7', '2', '6', '7'] := rfl
  rw [hb, mapped_filter]
  have hlen : mappableCount S =
      ((S.filter (fun c => bf_instr_to_oct c != '\x00')).map bf_instr_to_oct).length := by
    rw [List.length_map, mappableCount]
  rw [hlen, List.take_left, List.map_map]
  conv_rhs => rw [← List.map_id (S.filter (fun c => bf_instr_to_oct c != '\x00'))]
  apply List.map_congr_left
  intro c hc
  have hp := (List.mem_filter.mp hc).2
  exact oct_roundtrip c (by simpa using hp)

/-- C10: for every source `S`, `bf_generate_rom` reports a length of
`strlen(header) + 2 * (S.len + 8) - 1` no matter how many digit
tokens were actually emitted, so for every source containing at least
one unmappable character the reported length strictly exceeds the
number of bytes actually written into the output buffer. -/
theorem C10_thm (S : List Char) :
    bf_generate_rom_len S = romHeader.length + 2 * (S.length + 8) - 1 ∧
    ((∃ c ∈ S, bf_instr_to_oct c = '\x00') →
      (bf_generate_rom_bytes S).length < bf_generate_rom_len S) := by
  have h21 : romHeader.length = 21 := by decide
  constructor
  · unfold bf_generate_rom_len bf_get_rom_instruction_count
    omega
  · intro hex
    have hm : mappableCount S < S.length := by
      unfold mappableCount
      apply List.length_filter_lt_length_iff_exists.mpr
      obtain ⟨c, hc, hnul⟩ := hex
      exact ⟨c, hc, by simp [hnul]⟩
    have hb := rom_bytes_length S
    unfold bf_generate_rom_len bf_get_rom_instruction_count
    omega

/-- C10, witness: on the one-character source `x` (unmappable), the
reported ROM length strictly exceeds the bytes written. -/
theorem C10_witness :
    (bf_generate_rom_bytes ['x']).length < bf_generate_rom_len ['x'] :=
  (C10_thm ['x']).2 (by decide)

/-! ### Helper lemmas for the `]` instruction -/

def execFF : bf_exec := ⟨⟨0, 0, zeroFn, true, 0, 0, zeroFn⟩, [], []⟩

lemma bf_close_exit_pos (s1 : bf_state)
    (h : s1.fast_forwarding = true ∧ s1.sp = s1.sp_bff) :
    bf_close_exit s1 = { s1 with sp_bff := 0, fast_forwarding := false } := by
  unfold bf_close_exit
  rw [if_pos h]

lemma bf_close_exit_neg (s1 : bf_state)
    (h : ¬ (s1.fast_forwarding = true ∧ s1.sp = s1.sp_bff)) :
    bf_close_exit s1 = s1 := by
  unfold bf_close_exit
  rw [if_neg h]

lemma bf_flow_close_cases (e : bf_exec) :
    ((e.st.fast_forwarding = true ∧ e.st.sp = e.st.sp_bff) →
      (bf_flow_close e).st.fast_forwarding = false) ∧
    (¬ (e.st.fast_forwarding = true ∧ e.st.sp = e.st.sp_bff) →
      (bf_flow_close e).st.fast_forwarding = e.st.fast_forwarding) ∧
    (e.st.mem e.st.memp = 0 →
      (bf_flow_close e).st.stack = updateFn e.st.stack e.st.sp 0 ∧
      (bf_flow_close e).st.sp = u32_dec e.st.sp ∧
      (bf_flow_close e).st.pc = (e.st.pc + 1) % SIZE_T) ∧
    (e.st.mem e.st.memp ≠ 0 →
      (bf_flow_close e).st.pc = e.st.stack e.st.sp ∧
      (bf_flow_close e).st.sp = e.st.sp ∧
      (bf_flow_close e).st.stack = e.st.stack) := by
  unfold bf_flow_close
  by_cases hx : e.st.fast_forwarding = true ∧ e.st.sp = e.st.sp_bff
  · rw [bf_close_exit_pos e.st hx]
    dsimp only
    by_cases hm : e.st.mem e.st.memp = 0
    · rw [if_pos hm]
      exact ⟨fun _ => rfl, fun h => absurd hx h, fun _ => ⟨rfl, rfl, rfl⟩,
        fun h => absurd hm h⟩
    · rw [if_neg hm]
      exact ⟨fun _ => rfl, fun h => absurd hx h, fun h => absurd h hm,
        fun _ => ⟨rfl, rfl, rfl⟩⟩
  · rw [bf_close_exit_neg e.st hx]
    by_cases hm : e.st.mem e.st.memp = 0
    · rw [if_pos hm]
      exact ⟨fun h => absurd h hx, fun _ => rfl, fun _ => ⟨rfl, rfl, rfl⟩,
        fun h => absurd hm h⟩
    · rw [if_neg hm]
      exact ⟨fun h => absurd h hx, fun _ => rfl, fun h => absurd h hm,
        fun _ => ⟨rfl, rfl, rfl⟩⟩

lemma bf_data_step_close (set : bf_sim_settings) (e : bf_exec) :
    bf_data_step set e ']' = e := by
  unfold bf_data_step
  dsimp only
  split
  · rfl
  · rfl

lemma bf_char_close (set : bf_sim_settings) (e : bf_exec) :
    bf_char set e ']' = bf_flow_close e := by
  rw [bf_char, bf_data_step_close]
  unfold bf_flow_step
  rw [if_neg (by decide), if_pos rfl]

/-- C3: while fast-forwarding (entered at a LoopOpen whose controlling
cell is zero), every processed character leaves all memory cells, the
data pointer, and both I/O streams unchanged — so a skipped loop body
(nested loops included) produces no Output/Input side effects;
concretely, running `[+]` from the initial state terminates after its
3 characters (pc = 3 = length) with memory unchanged, no I/O, and the
fast-forward flag going false → true → true → false, i.e. entering and
exiting fast-forward exactly once. -/
theorem C3_thm :
    (∀ (set : bf_sim_settings) (e : bf_exec) (c : Char),
      e.st.fast_forwarding = true →
        (bf_char set e c).st.mem = e.st.mem ∧ (bf_char set e c).st.memp = e.st.memp ∧
        (bf_char set e c).inp = e.inp ∧ (bf_char set e c).out = e.out) ∧
    ((bf_run set8 "[+]".toList 3 (execInit zeroFn zeroFn [])).st.pc = 3 ∧
      (bf_run set8 "[+]".toList 3 (execInit zeroFn zeroFn [])).st.memp = 0 ∧
      (bf_run set8 "[+]".toList 3 (execInit zeroFn zeroFn [])).out = [] ∧
      (bf_run set8 "[+]".toList 3 (execInit zeroFn zeroFn [])).inp = [] ∧
      (execInit zeroFn zeroFn []).st.fast_forwarding = false ∧
      (bf_run set8 "[+]".toList 1 (execInit zeroFn zeroFn [])).st.fast_forwarding = true ∧
      (bf_run set8 "[+]".toList 2 (execInit zeroFn zeroFn [])).st.fast_forwarding = true ∧
      (bf_run set8 "[+]".toList 3 (execInit zeroFn zeroFn [])).st.fast_forwarding = false ∧
      (bf_run set8 "[+]".toList 3 (execInit zeroFn zeroFn [])).st.mem =
        (bf_init zeroFn zeroFn).mem) :=
  ⟨fun set e c h => bf_char_ff set e c h,
    by decide, by decide, by decide, by decide, by decide, by decide, by decide,
    by decide, rfl⟩

/-- C3, witness: the fast-forward preservation part applied to a
concrete fast-forwarding state processing `+`. -/
theorem C3_witness :
    (bf_char set8 execFF '+').st.mem = execFF.st.mem ∧
    (bf_char set8 execFF '+').st.memp = execFF.st.memp ∧
    (bf_char set8 execFF '+').inp = execFF.inp ∧
    (bf_char set8 execFF '+').out = execFF.out :=
  C3_thm.1 set8 execFF '+' rfl

/-- C4: executing LoopClose exits fast-forward exactly when it is
active and the stack depth equals the recorded anchor; then, if the
controlling cell is zero the call stack is popped (its top zeroed, the
stack pointer decremented) and the program counter advances by one,
otherwise the program counter is set to the not-removed top of the
call stack without advancing; concretely, `+[-]` with 8-bit cells
terminates after 4 steps with cell 0 (at the data pointer) equal to 0,
the loop body having run exactly once. -/
theorem C4_thm :
    (∀ (set : bf_sim_settings) (e : bf_exec),
      ((e.st.fast_forwarding = true ∧ e.st.sp = e.st.sp_bff) →
        (bf_char set e ']').st.fast_forwarding = false) ∧
      (¬ (e.st.fast_forwarding = true ∧ e.st.sp = e.st.sp_bff) →
        (bf_char set e ']').st.fast_forwarding = e.st.fast_forwarding) ∧
      (e.st.mem e.st.memp = 0 →
        (bf_char set e ']').st.stack = updateFn e.st.stack e.st.sp 0 ∧
        (bf_char set e ']').st.sp = u32_dec e.st.sp ∧
        (bf_char set e ']').st.pc = (e.st.pc + 1) % SIZE_T) ∧
      (e.st.mem e.st.memp ≠ 0 →
        (bf_char set e ']').st.pc = e.st.stack e.st.sp ∧
        (bf_char set e ']').st.sp = e.st.sp ∧
        (bf_char set e ']').st.stack = e.st.stack)) ∧
    ((bf_run set8 "+[-]".toList 4 (execInit zeroFn zeroFn [])).st.pc = 4 ∧
      (bf_run set8 "+[-]".toList 4 (execInit zeroFn zeroFn [])).st.mem 0 = 0 ∧
      (bf_run set8 "+[-]".toList 4 (execInit zeroFn zeroFn [])).st.memp = 0 ∧
      (bf_run set8 "+[-]".toList 1 (execInit zeroFn zeroFn [])).st.pc = 1 ∧
      (bf_run set8 "+[-]".toList 1 (execInit zeroFn zeroFn [])).st.mem 0 = 1 ∧
      (bf_run set8 "+[-]".toList 2 (execInit zeroFn zeroFn [])).st.pc = 2 ∧
      (bf_run set8 "+[-]".toList 3 (execInit zeroFn zeroFn [])).st.pc = 3 ∧
      (bf_run set8 "+[-]".toList 3 (execInit zeroFn zeroFn [])).st.mem 0 = 0) := by
  constructor
  · intro set e
    rw [bf_char_close set e]
    exact bf_flow_close_cases e
  · decide

/-- C4, witness: the fast-forward exit branch applied to a concrete
fast-forwarding state whose stack depth equals the anchor. -/
theorem C4_witness :
    (bf_char set8 execFF ']').st.fast_forwarding = false :=
  (C4_thm.1 set8 execFF).1 ⟨rfl, rfl⟩

/-! ### Helper lemmas for cell arithmetic -/

lemma updateFn_same (f : Nat → Nat) (i v : Nat) : updateFn f i v i = v := by
  simp [updateFn]

lemma mask_step (M v : Nat) (hdvd : (2 ^ M : Nat) ∣ 2 ^ 32) :
    ((v + 1) % U32) &&& (2 ^ M - 1) = (v + 1) % 2 ^ M := by
  rw [Nat.and_pow_two_sub_one_eq_mod]
  rw [show U32 = 2 ^ 32 from rfl]
  exact Nat.mod_mod_of_dvd _ hdvd

lemma bf_char_plus_ff (set : bf_sim_settings) (e : bf_exec)
    (h : e.st.fast_forwarding = true) :
    bf_char set e '+' = { e with st := { e.st with pc := (e.st.pc + 1) % SIZE_T } } := by
  rw [bf_char, bf_data_step_ff set e '+' h,
    bf_flow_step_other _ _ (by decide) (by decide)]

lemma plus_iter (set : bf_sim_settings) (M : Nat) (hmask : set.cell_mask = 2 ^ M - 1)
    (hdvd : (2 ^ M : Nat) ∣ 2 ^ 32) (e : bf_exec)
    (hff : e.st.fast_forwarding = false) :
    ∀ k, ((fun x => bf_char set x '+')^[k + 1] e).st.mem e.st.memp
        = (e.st.mem e.st.memp + (k + 1)) % 2 ^ M ∧
      ((fun x => bf_char set x '+')^[k + 1] e).st.memp = e.st.memp ∧
      ((fun x => bf_char set x '+')^[k + 1] e).st.fast_forwarding = false := by
  intro k
  induction k with
  | zero =>
    rw [show (0 : Nat) + 1 = 1 from rfl, Function.iterate_one]
    rw [bf_char_plus set e hff]
    dsimp only
    refine ⟨?_, rfl, hff⟩
    rw [updateFn_same, hmask]
    exact mask_step M _ hdvd
  | succ n ih =>
    obtain ⟨h1, h2, h3⟩ := ih
    rw [Function.iterate_succ_apply']
    rw [bf_char_plus set _ h3]
    dsimp only
    refine ⟨?_, h2, h3⟩
    rw [h2, updateFn_same, h1, hmask]
    rw [mask_step M _ hdvd]
    rw [Nat.mod_add_mod]
    have harith : e.st.mem e.st.memp + (n + 1) + 1 = e.st.mem e.st.memp + (n + 1 + 1) := by
      omega
    rw [harith]

lemma plus_iter_ff (set : bf_sim_settings) (e : bf_exec)
    (hff : e.st.fast_forwarding = true) :
    ∀ k, ((fun x => bf_char set x '+')^[k] e).st.mem = e.st.mem ∧
      ((fun x => bf_char set x '+')^[k] e).st.memp = e.st.memp ∧
      ((fun x => bf_char set x '+')^[k] e).st.fast_forwarding = true := by
  intro k
  induction k with
  | zero => exact ⟨rfl, rfl, hff⟩
  | succ n ih =>
    obtain ⟨h1, h2, h3⟩ := ih
    rw [Function.iterate_succ_apply']
    rw [bf_char_plus_ff set _ h3]
    dsimp only
    exact ⟨h1, h2, h3⟩

/-- A machine state whose current cell holds 256, which an 8-bit-wide
cell can never reach once the mask has been applied. -/
def execC6 : bf_exec := ⟨⟨0, 0, zeroFn, false, 0, 0, updateFn zeroFn 0 256⟩, [], []⟩

set_option maxRecDepth 4000 in
/-- C6, counterexample to the claim as stated: with width 8
(`cell_mask = 255`) and a cell holding 256 (cells are `uint32_t`, so
256 is a representable cell value), 2^8 Increment steps drive the cell
to 0, not back to 256 — the wraparound law fails for cell values not
below `2 ^ W`. -/
theorem C6_counterexample :
    execC6.st.mem execC6.st.memp = 256 ∧
    ((fun x => bf_char set8 x '+')^[2 ^ 8] execC6).st.mem execC6.st.memp = 0 ∧
    ¬ (((fun x => bf_char set8 x '+')^[2 ^ 8] execC6).st.mem execC6.st.memp =
        execC6.st.mem execC6.st.memp) := by
  refine ⟨by decide, by decide, by decide⟩

/-- C6, amended: for every width `W ∈ {8, 16, 32}`, every machine
state, and every value of the current cell **below `2 ^ W`** (which
covers every reachable cell value, as the mask is applied after every
arithmetic mutation), applying Increment `2 ^ W` times returns the
cell to its original value (and leaves the data pointer in place). -/
theorem C6_amended_thm (W : Nat) (hW : W = 8 ∨ W = 16 ∨ W = 32)
    (set : bf_sim_settings) (hset : set.cell_mask = bf_cell_mask W) (e : bf_exec)
    (hv : e.st.mem e.st.memp < 2 ^ W) :
    ((fun x => bf_char set x '+')^[2 ^ W] e).st.mem e.st.memp = e.st.mem e.st.memp ∧
    ((fun x => bf_char set x '+')^[2 ^ W] e).st.memp = e.st.memp := by
  by_cases hff : e.st.fast_forwarding = false
  · have hmask : set.cell_mask = 2 ^ W - 1 := by
      rcases hW with h | h | h <;> subst h <;> rw [hset] <;> decide
    have hW32 : W ≤ 32 := by rcases hW with h | h | h <;> omega
    have hdvd : (2 ^ W : Nat) ∣ 2 ^ 32 := pow_dvd_pow 2 hW32
    have hpos : 0 < 2 ^ W := Nat.two_pow_pos W
    have hpow : 2 ^ W = (2 ^ W - 1) + 1 := by omega
    rw [hpow]
    obtain ⟨hcell, hmemp, _⟩ := plus_iter set W hmask hdvd e hff (2 ^ W - 1)
    rw [hcell, hmemp]
    refine ⟨?_, rfl⟩
    rw [← hpow, Nat.add_mod_right]
    exact Nat.mod_eq_of_lt hv
  · have hff' : e.st.fast_forwarding = true := by
      cases hb : e.st.fast_forwarding
      · exact absurd hb hff
      · rfl
    obtain ⟨h1, h2, _⟩ := plus_iter_ff set e hff' (2 ^ W)
    rw [h1, h2]
    exact ⟨rfl, rfl⟩

/-- C6, witness: the amended theorem applied to the initial state of
an 8-bit run (cell value 0 < 2^8). -/
theorem C6_witness :
    ((fun x => bf_char set8 x '+')^[2 ^ 8] (execInit zeroFn zeroFn [])).st.mem
        (execInit zeroFn zeroFn []).st.memp =
      (execInit zeroFn zeroFn []).st.mem (execInit zeroFn zeroFn []).st.memp :=
  (C6_amended_thm 8 (Or.inl rfl) set8 rfl (execInit zeroFn zeroFn []) (by decide)).1

/-- C7: `bf_init` sets the scalar fields and the memory to zero, but
its `memset(ret.stack, 0, STACK_SIZE)` clears only `STACK_SIZE` bytes
= 64 of the 256 `uint32_t` call-stack entries (the memory memset right
below correctly multiplies by `sizeof(uint32_t)`), so a call-stack
entry from index 64 on keeps whatever `malloc` returned: with garbage
value 1, entry 64 is 1, not 0, while entry 63 and all memory cells are
0 and `sp = pc = memp = 0`, fast-forward off. -/
theorem C7_bug_eval :
    (bf_init (fun _ => 1) zeroFn).stack 64 = 1 ∧
    (bf_init (fun _ => 1) zeroFn).stack 63 = 0 ∧
    (bf_init (fun _ => 1) zeroFn).sp = 0 ∧
    (bf_init (fun _ => 1) zeroFn).pc = 0 ∧
    (bf_init (fun _ => 1) zeroFn).memp = 0 ∧
    (bf_init (fun _ => 1) zeroFn).fast_forwarding = false ∧
    (bf_init (fun _ => 1) zeroFn).mem 0 = 0 ∧
    (bf_init (fun _ => 1) zeroFn).mem 65535 = 0 := by
  refine ⟨by decide, by decide, by decide, by decide, by decide, by decide,
    by decide, by decide⟩

/-- C8: outside fast-forward, executing Input with the input stream at
end-of-stream leaves every memory cell unchanged (no sentinel is
written); with a byte available, exactly that byte is stored into the
cell at the data pointer and the byte is consumed. -/
theorem C8_thm (set : bf_sim_settings) (e : bf_exec)
    (h : e.st.fast_forwarding = false) :
    (e.inp = [] →
      (bf_char set e ',').st.mem = e.st.mem ∧
      (bf_char set e ',').st.memp = e.st.memp ∧
      (bf_char set e ',').inp = []) ∧
    (∀ b rest, e.inp = b :: rest →
      (bf_char set e ',').st.mem = updateFn e.st.mem e.st.memp b ∧
      (bf_char set e ',').st.memp = e.st.memp ∧
      (bf_char set e ',').inp = rest) := by
  constructor
  · intro hinp
    rw [bf_char_comma_nil set e h hinp]
    exact ⟨rfl, rfl, hinp⟩
  · intro b rest hinp
    rw [bf_char_comma_cons set e b rest h hinp]
    exact ⟨rfl, rfl, rfl⟩

/-- C8, witness: the end-of-stream branch applied to the initial state
with empty input, and the available-byte branch applied to the initial
state with input `[65]`. -/
theorem C8_witness :
    ((bf_char set8 (execInit zeroFn zeroFn []) ',').st.mem =
        (execInit zeroFn zeroFn []).st.mem ∧
      (bf_char set8 (execInit zeroFn zeroFn []) ',').st.memp =
        (execInit zeroFn zeroFn []).st.memp ∧
      (bf_char set8 (execInit zeroFn zeroFn []) ',').inp = []) ∧
    ((bf_char set8 (execInit zeroFn zeroFn [65]) ',').st.mem =
        updateFn (execInit zeroFn zeroFn [65]).st.mem
          (execInit zeroFn zeroFn [65]).st.memp 65 ∧
      (bf_char set8 (execInit zeroFn zeroFn [65]) ',').st.memp =
        (execInit zeroFn zeroFn [65]).st.memp ∧
      (bf_char set8 (execInit zeroFn zeroFn [65]) ',').inp = []) :=
  ⟨(C8_thm set8 (execInit zeroFn zeroFn []) rfl).1 rfl,
    (C8_thm set8 (execInit zeroFn zeroFn [65]) rfl).2 65 [] rfl⟩

/-- A machine state whose current cell holds the tab character (9). -/
def execTab : bf_exec := ⟨⟨0, 0, zeroFn, false, 0, 0, updateFn zeroFn 0 9⟩, [], []⟩

/-- C9: outside fast-forward, executing Output emits a space byte (32)
when the current cell equals the tab character (9), and otherwise the
cell's value as a byte (its low 8 bits, the value itself for cells
below 256); concretely, `++.` with 8-bit cells and no input emits the
single byte 2. -/
theorem C9_thm :
    (∀ (set : bf_sim_settings) (e : bf_exec), e.st.fast_forwarding = false →
      (e.st.mem e.st.memp = 9 → (bf_char set e '.').out = e.out ++ [32]) ∧
      (e.st.mem e.st.memp ≠ 9 →
        (bf_char set e '.').out = e.out ++ [e.st.mem e.st.memp % 256])) ∧
    ((bf_run set8 "++.".toList 3 (execInit zeroFn zeroFn [])).out = [2] ∧
      (bf_run set8 "++.".toList 3 (execInit zeroFn zeroFn [])).st.pc = 3) := by
  constructor
  · intro set e h
    constructor
    · intro h9
      rw [bf_char_dot set e h, if_pos h9]
    · intro h9
      rw [bf_char_dot set e h, if_neg h9]
  · exact ⟨by decide, by decide⟩

/-- C9, witness: the tab branch applied to a state whose cell holds 9,
and the ordinary branch applied to the initial state (cell 0). -/
theorem C9_witness :
    (bf_char set8 execTab '.').out = execTab.out ++ [32] ∧
    (bf_char set8 (execInit zeroFn zeroFn []) '.').out =
      (execInit zeroFn zeroFn []).out ++
        [(execInit zeroFn zeroFn []).st.mem (execInit zeroFn zeroFn []).st.memp % 256] :=
  ⟨(C9_thm.1 set8 execTab rfl).1 (by decide),
    (C9_thm.1 set8 (execInit zeroFn zeroFn []) rfl).2 (by decide)⟩
